import Mathlib

/-!
Verification development for the bliss-analyser scan/classify/dispatch/reduce/persist
pipeline.  The definitions below are a shallow embedding of the Rust sources
(`src/db.rs`, `src/analyse.rs`, `src/cue.rs`, `src/tags.rs`); each definition keeps the
source's structure and names.  External collaborators (the SQLite engine, the bliss
feature extractor, lofty tag parsing, the filesystem) are modelled as parameters or as
abstract data, exactly at the boundaries the code calls them.
-/

/-- `CUE_MARKER` from `db.rs`: the reserved suffix marking virtual cue sub-tracks. -/
def CUE_MARKER : String := ".CUE_TRACK."

/-- `DONT_ANALYSE` from `analyse.rs`: sentinel file name that excludes a directory. -/
def DONT_ANALYSE : String := ".notmusic"

/-- `VALID_EXTENSIONS` from `analyse.rs`. -/
def VALID_EXTENSIONS : List String := ["m4a", "mp3", "ogg", "flac", "opus", "wv", "dsf"]

/-- `LAST_TRACK_DURATION` from `cue.rs`: sentinel duration (seconds) for the final cue
track, resolved after decode. -/
def LAST_TRACK_DURATION : Nat := 60 * 60 * 24

/-- The bliss feature vector.  Its numeric contents (f32) are produced by the external
analyzer and never inspected by the pipeline logic modelled here, so only its identity
is modelled. -/
structure Analysis where
  id : Nat
deriving DecidableEq

/-- `Metadata` from `db.rs`. -/
structure Metadata where
  title : String
  artist : String
  album_artist : String
  album : String
  genre : String
  duration : Nat
  analysis : Option Analysis
deriving DecidableEq

/-- `Metadata::default()` (Rust `Default`): empty strings, zero duration, no analysis. -/
def Metadata.mkDefault : Metadata :=
  { title := "", artist := "", album_artist := "", album := "", genre := "",
    duration := 0, analysis := none }

/-- `Metadata::is_empty` from `db.rs` lines 54-61: only the five text fields are
tested; duration and analysis are not consulted. -/
def Metadata.is_empty (m : Metadata) : Bool :=
  m.title.isEmpty && m.artist.isEmpty && m.album_artist.isEmpty
    && m.album.isEmpty && m.genre.isEmpty

/-- One row of the `Tracks` table created by `Db::init` (`db.rs` lines 82-128): the
`File` primary key, the metadata columns, the `Ignore` column and the feature columns
(collapsed into one `Analysis` value). -/
structure Row where
  file : String
  title : String
  artist : String
  album_artist : String
  album : String
  genre : String
  duration : Nat
  ignore : Nat
  analysis : Analysis
deriving DecidableEq

/-- The catalog: the single `Tracks` table.  Row order models insertion order; the
rowid of a row is its position plus one (only row identity matters to the pipeline). -/
structure Db where
  rows : List Row
deriving DecidableEq

/-- The tables created by `Db::init` (`db.rs` lines 82-128): a single `CREATE TABLE IF
NOT EXISTS Tracks (...)`.  No failure table is created. -/
def Db.init_tables : List String := ["Tracks"]

/-- The `cfg!(windows)` path-separator normalization performed by `Db::get_rowid` and
`Db::add_track`: `db_path.replace("\\", "/")` on Windows, the path unchanged
elsewhere.  The pattern and replacement are single characters, so the replacement is a
character map. -/
def normPath (windows : Bool) (p : String) : String :=
  if windows then String.mk (p.data.map (fun c => if c = '\\' then '/' else c)) else p

/-- `Db::get_rowid` (`db.rs` lines 134-147): normalize the separator, select the rowid
of the row whose `File` equals the normalized path, 0 when absent. -/
def Db.get_rowid (db : Db) (windows : Bool) (path : String) : Nat :=
  let db_path := normPath windows path
  match db.rows.findIdx? (fun r => r.file == db_path) with
  | some i => i + 1
  | none => 0

/-- `Db::add_track` (`db.rs` lines 149-180): normalize the path, then INSERT a new row
(with `Ignore` 0) when `get_rowid` found nothing, else UPDATE the metadata and feature
columns of the row with that rowid (the `File` and `Ignore` columns are untouched). -/
def Db.add_track (db : Db) (windows : Bool) (path : String) (meta : Metadata)
    (analysis : Analysis) : Db :=
  let db_path := normPath windows path
  let id := db.get_rowid windows path
  if id = 0 then
    ⟨db.rows ++ [{ file := db_path, title := meta.title, artist := meta.artist,
                   album_artist := meta.album_artist, album := meta.album,
                   genre := meta.genre, duration := meta.duration, ignore := 0,
                   analysis := analysis }]⟩
  else
    ⟨db.rows.mapIdx (fun i r =>
      if i + 1 = id then
        { r with title := meta.title, artist := meta.artist,
                 album_artist := meta.album_artist, album := meta.album,
                 genre := meta.genre, duration := meta.duration,
                 analysis := analysis }
      else r)⟩

/-- Truncate a character list at the first occurrence of `marker`; the whole list when
the marker does not occur.  Models `String::find` followed by `String::truncate`. -/
def truncAt (marker : List Char) : List Char → List Char
  | [] => []
  | c :: cs => if marker.isPrefixOf (c :: cs) then [] else c :: truncAt marker cs

/-- The cue-suffix stripping done by `Db::remove_old` (`db.rs` lines 190-195):
truncate the stored key at the first occurrence of `CUE_MARKER`. -/
def stripCue (p : String) : String := String.mk (truncAt CUE_MARKER.data p.data)

/-- The reverse separator mapping of `remove_old` (`db.rs` lines 196-198):
`db_path.replace("/", "\\")` on Windows. -/
def denormPath (windows : Bool) (p : String) : String :=
  if windows then String.mk (p.data.map (fun c => if c = '/' then '\\' else c)) else p

/-- The per-root existence test of `remove_old` (`db.rs` lines 201-209): the
filesystem is a predicate `fs root relpath` standing for `mpath.join(db_path).exists()`. -/
def existsUnderRoots (fs : String → String → Bool) (roots : List String)
    (rel : String) : Bool :=
  roots.any (fun m => fs m rel)

/-- `Db::remove_old` (`db.rs` lines 182-240).  Collect the `File` of every row whose
underlying (cue-suffix-stripped) file is absent under every root; with `dry_run` the
catalog is untouched.  Otherwise each collected key is deleted and the final count is
compared: the returned Bool is the `(count_now + num_to_remove) == count_before`
integrity check (its failure is logged, never fatal, so it is returned, not thrown). -/
def Db.remove_old (db : Db) (windows : Bool) (fs : String → String → Bool)
    (roots : List String) (dry_run : Bool) : Db × Bool :=
  let to_remove : List String :=
    (db.rows.filter (fun r =>
      !(existsUnderRoots fs roots (denormPath windows (stripCue r.file))))).map
      (fun r => r.file)
  if 0 < to_remove.length ∧ dry_run = false then
    let db2 := to_remove.foldl (fun (d : Db) t => ⟨d.rows.filter (fun r => r.file != t)⟩) db
    (db2, db2.rows.length + to_remove.length == db.rows.length)
  else
    (db, true)

/-- `CueTrack` from `cue.rs` (the non-libav variant used with the ffmpeg command-line
decoder).  Durations and start offsets are modelled at second granularity (all
durations the pipeline computes and stores are whole seconds). -/
structure CueTrack where
  audio_path : String
  track_path : String
  title : String
  artist : String
  album : String
  album_artist : String
  genre : String
  start : Nat
  duration : Nat
deriving DecidableEq

/-- One track of a parsed cue sheet as delivered by the external `rcue` parser:
title, performer and the list of `INDEX` entries (index label, start offset). -/
structure RCueTrack where
  title : Option String
  performer : Option String
  indices : List (String × Nat)
deriving DecidableEq

/-- One `FILE` entry of a parsed cue sheet. -/
structure RCueFile where
  tracks : List RCueTrack
deriving DecidableEq

/-- A parsed cue sheet as delivered by `rcue::parser::parse_from_file`. -/
structure RCueSheet where
  title : Option String
  performer : Option String
  comments : List (String × String)
  files : List RCueFile
deriving DecidableEq

/-- The start offset of a sheet track: the offset of its first `INDEX` entry
(`track.indices.get(0)`), 0 when it has none (in that case `cue::parse` drops the
track and never reads the value). -/
def startOf (t : RCueTrack) : Nat :=
  (t.indices.head?.map Prod.snd).getD 0

/-- The GENRE comment extraction of `cue::parse` (`cue.rs` lines 52-57): the loop
overwrites on every match, so the last `GENRE` comment wins. -/
def cueGenre (comments : List (String × String)) : String :=
  comments.foldl (fun g c => if c.1 = "GENRE" then c.2 else g) ""

/-- Construction of one `CueTrack` by `cue::parse` (`cue.rs` lines 63-88).
`track_path` comes from `set_extension(ext + CUE_MARKER + n)`: on a path whose
extension is `ext` this appends the marker and the 1-based index.  `audioStem` is the
base name `file_name()` yields after `set_extension("")`, used as the fallback album.
An empty track performer inherits the sheet performer; the duration starts at the
`LAST_TRACK_DURATION` sentinel. -/
def mkCueTrack (audioPath audioStem album album_artist genre : String) (n : Nat)
    (t : RCueTrack) (start : Nat) : CueTrack :=
  let artist0 := t.performer.getD ""
  { audio_path := audioPath,
    track_path := audioPath ++ CUE_MARKER ++ toString n,
    title := t.title.getD "",
    artist := if artist0.isEmpty && !album_artist.isEmpty then album_artist else artist0,
    album := if album.isEmpty then audioStem else album,
    album_artist := album_artist,
    genre := genre,
    start := start,
    duration := LAST_TRACK_DURATION }

/-- The track-building loop of `cue::parse` (`cue.rs` lines 59-93): tracks without an
`INDEX` entry are dropped; the 1-based running index is `resp.len() + 1`. -/
def buildCueTracks (audioPath audioStem album album_artist genre : String) :
    List RCueTrack → List CueTrack → List CueTrack
  | [], acc => acc
  | t :: rest, acc =>
    match t.indices.head? with
    | some p =>
        buildCueTracks audioPath audioStem album album_artist genre rest
          (acc ++ [mkCueTrack audioPath audioStem album album_artist genre
                     (acc.length + 1) t p.2])
    | none => buildCueTracks audioPath audioStem album album_artist genre rest acc

/-- Whether the start offsets are (weakly) sorted; when they are not, the Rust
`Duration` subtraction `next_start - elem.start` in the fixup loop panics. -/
def startsSorted : List CueTrack → Bool
  | [] => true
  | [_] => true
  | a :: b :: rest => decide (a.start ≤ b.start) && startsSorted (b :: rest)

/-- The duration-fixup loop of `cue::parse` (`cue.rs` lines 99-107) on a nonempty
list: every track but the last gets `next start - own start`; the last keeps its
sentinel. -/
def fixDur : List CueTrack → List CueTrack
  | [] => []
  | [t] => [t]
  | t :: nxt :: rest => { t with duration := nxt.start - t.start } :: fixDur (nxt :: rest)

/-- The duration-fixup phase of `cue::parse`, made panic-aware.  `for i in
0..(resp.len()-1)` underflows the usize subtraction when `resp` is empty (a panic in a
debug build, a 2^64-iteration loop in release), and the `Duration` subtraction panics
when a later track starts earlier; both abnormal outcomes are `none`. -/
def fixupDurations (resp : List CueTrack) : Option (List CueTrack) :=
  if resp = [] then none
  else if startsSorted resp then some (fixDur resp)
  else none

/-- `cue::parse` (`cue.rs` lines 45-109).  The outcome of the external
`rcue::parser::parse_from_file` call is the `parsed` argument.  A parse error or a
sheet whose `files` count differs from one contributes no tracks; the built list then
passes through the duration fixup. -/
def cue_parse (audioPath audioStem : String) (parsed : Except String RCueSheet) :
    Option (List CueTrack) :=
  let resp : List CueTrack :=
    match parsed with
    | .error _ => []
    | .ok cue =>
      let album := cue.title.getD ""
      let album_artist := cue.performer.getD ""
      let genre := cueGenre cue.comments
      if cue.files.length = 1 then
        cue.files.foldl
          (fun acc f => buildCueTracks audioPath audioStem album album_artist genre
            f.tracks acc) []
      else []
  fixupDurations resp

/-- The duration substitution of `analyse_new_cue_tracks` (`analyse.rs` line 469):
a sentinel-duration track takes the decoder-measured duration, any other keeps the
sheet-computed one. -/
def cue_track_resolved_duration (track_duration song_duration : Nat) : Nat :=
  if LAST_TRACK_DURATION ≤ track_duration then song_duration else track_duration

/-- Stated from the spec's words, for comparison with `cue_parse`: the expected
duration list, given the start offsets — each track's duration is the next track's
start minus its own, and the last carries the sentinel. -/
def adjDiffs : List Nat → List Nat
  | [] => []
  | [_] => [LAST_TRACK_DURATION]
  | a :: b :: rest => (b - a) :: adjDiffs (b :: rest)

/-- Whether a list of start offsets is weakly increasing (the shape of every real cue
sheet; when violated the fixup loop's `Duration` subtraction panics). -/
def sortedStarts : List Nat → Bool
  | [] => true
  | [_] => true
  | a :: b :: rest => decide (a ≤ b) && sortedStarts (b :: rest)

/-- The first-sub-track key probed by `check_dir_entry` (`analyse.rs` lines 130-134):
`set_extension(ext + CUE_MARKER + "1")` on the relative path, which on a path whose
extension is `ext` appends the marker and index 1. -/
def cueFirstTrackKey (sname : String) : String := sname ++ CUE_MARKER ++ "1"

/-- One plain file met during traversal, carrying exactly what `check_dir_entry`
(`analyse.rs` lines 108-177) extracts from it and from its collaborators:
its extension, the `strip_prefix(mpath)` outcome (`strippedOk` / `sname`), whether a
same-stem `.cue` sheet exists, that sheet's path and its `cue::parse` expansion (the
value a successful in-scan parse yields), and the `tags::read(pb, true)` result. -/
structure PlainFile where
  fullPath : String
  ext : Option String
  strippedOk : Bool
  sname : String
  cueExists : Bool
  cuePath : String
  cueTracksParsed : List CueTrack
  tagMeta : Metadata
deriving DecidableEq

/-- The out-parameters threaded through the traversal (`get_file_list` /
`check_dir_entry`): the catalog handle, the pending plain paths, the pending cue
tracks and the two discovery counters. -/
structure ScanState where
  db : Db
  track_paths : List String
  cue_tracks : List CueTrack
  file_count : Nat
  tagged_file_count : Nat
deriving DecidableEq

/-- The plain-file branch of `check_dir_entry` (`analyse.rs` lines 118-176).
`windows` is `cfg!(windows)` (it reaches `Db::get_rowid`), `ffmpegFeat` selects
between the two `cfg` variants of the cue handling (lines 137-150): without ffmpeg the
sheet path itself is queued, with ffmpeg the sheet is expanded via `cue::parse`.
A plain file whose tags already carry metadata and an analysis is upserted at once
(lines 157-165) unless `dry_run`; otherwise it is queued for analysis. -/
def scan_file (windows ffmpegFeat dry_run : Bool) (max_num_files : Nat)
    (f : PlainFile) (st : ScanState) : ScanState :=
  if ¬ (max_num_files = 0 ∨ st.file_count < max_num_files) then st
  else
    match f.ext with
    | none => st
    | some ext =>
      if ¬ VALID_EXTENSIONS.contains ext then st
      else if ¬ f.strippedOk then st
      else if f.cueExists then
        let id := st.db.get_rowid windows (cueFirstTrackKey f.sname)
        if id = 0 then
          if ffmpegFeat then
            { st with cue_tracks := st.cue_tracks ++ f.cueTracksParsed,
                      file_count := st.file_count + 1 }
          else
            { st with track_paths := st.track_paths ++ [f.cuePath],
                      file_count := st.file_count + 1 }
        else st
      else
        let id := st.db.get_rowid windows f.sname
        if id = 0 then
          let meta := f.tagMeta
          if meta.is_empty = false ∧ meta.analysis.isSome then
            { st with
              db := if dry_run then st.db
                    else st.db.add_track windows f.sname meta (meta.analysis.getD ⟨0⟩),
              tagged_file_count := st.tagged_file_count + 1 }
          else
            { st with track_paths := st.track_paths ++ [f.fullPath],
                      file_count := st.file_count + 1 }
        else st

mutual

/-- A directory entry as the sorted traversal of `get_file_list` sees it: a
subdirectory (with its `.notmusic` marker status and sorted children) or a plain
file. -/
inductive FsEntry where
  | dir (notmusic : Bool) (children : FsList)
  | file (f : PlainFile)

/-- A sorted directory listing. -/
inductive FsList where
  | nil
  | cons (e : FsEntry) (rest : FsList)

end

mutual

/-- `check_dir_entry` (`analyse.rs` lines 108-177): a `.notmusic`-marked directory is
skipped with all descendants; an unmarked one is recursed into while the cap allows;
a file goes through `scan_file`. -/
def scan_entry (windows ffmpegFeat dry_run : Bool) (max_num_files : Nat) :
    FsEntry → ScanState → ScanState
  | .dir notmusic children, st =>
      if notmusic then st
      else if max_num_files = 0 ∨ st.file_count < max_num_files then
        scan_list windows ffmpegFeat dry_run max_num_files children st
      else st
  | .file f, st => scan_file windows ffmpegFeat dry_run max_num_files f st

/-- The loop of `get_file_list` (`analyse.rs` lines 100-105): process the sorted
entries in order, stopping once the discovery cap is reached. -/
def scan_list (windows ffmpegFeat dry_run : Bool) (max_num_files : Nat) :
    FsList → ScanState → ScanState
  | .nil, st => st
  | .cons e rest, st =>
      let st1 := scan_entry windows ffmpegFeat dry_run max_num_files e st
      if 0 < max_num_files ∧ max_num_files ≤ st1.file_count then st1
      else scan_list windows ffmpegFeat dry_run max_num_files rest st1

end

/-- The chunk-size computation of `analyze_cue_streaming` (`analyse.rs` lines
414-419): the integer (floor) quotient of the track count by the cpu count, promoted
to the whole count when the quotient is zero and to 2 when it is 1 with more tracks
than cpus. -/
def chunk_length (n num_cpus : Nat) : Nat :=
  let c := n / num_cpus
  if c = 0 then n
  else if c = 1 ∧ num_cpus < n then 2
  else c

/-- The loop of Rust `slice::chunks(k)`, with an explicit fuel: each iteration takes
the next `k` elements.  The fuel (instantiated with the list length, which bounds the
number of chunks when `k ≥ 1`) only makes the recursion structural. -/
def chunksOfFuel (k : Nat) : Nat → List α → List (List α)
  | 0, _ => []
  | _, [] => []
  | fuel + 1, x :: xs => (x :: xs).take k :: chunksOfFuel k fuel ((x :: xs).drop k)

/-- Rust `slice::chunks(k)`: contiguous chunks of `k` elements, the last possibly
shorter.  `k = 0` panics in Rust and is unreachable at the call site (the input is
nonempty, making `chunk_length` positive); it is mapped to `[]` here. -/
def chunksOf (k : Nat) (l : List α) : List (List α) :=
  if k = 0 then [] else chunksOfFuel k l.length l

/-- The partitioning performed by `analyze_cue_streaming` (`analyse.rs` lines
401-438): an empty input yields no chunks (early return), otherwise the input is split
into contiguous chunks of `chunk_length` items and one worker thread is spawned per
chunk. -/
def analyze_cue_streaming_chunks (tracks : List CueTrack) (num_cpus : Nat) :
    List (List CueTrack) :=
  if tracks = [] then []
  else chunksOf (chunk_length tracks.length num_cpus) tracks

/-- Stated from the claim's words, for comparison with `chunk_length`: chunks sized
`ceil(N / W)`, with a floor of 2 items when `N > W`. -/
def claimedChunkSize (n w : Nat) : Nat :=
  let c := (n + w - 1) / w
  if w < n ∧ c < 2 then 2 else c

/-- `Path::strip_prefix(mpath)` on paths that were produced by joining `mpath` with a
relative path: drop the prefix and the separator that follows it. -/
def stripPfx (mpath p : String) : String :=
  String.mk ((p.data.drop mpath.data.length).dropWhile (fun c => c = '/'))

/-- The cue information bliss attaches to a song decoded from a cue sheet; the
reducer reads only `audio_file_path`. -/
structure BlissCueInfo where
  audio_file_path : String
deriving DecidableEq

/-- A successful bliss analysis result as the reducer of `analyse_new_files`
(`analyse.rs` lines 235-313) consumes it: the optional cue information and track
number, the analyzer-reported tag fields, the decoded duration and the feature
vector. -/
structure BlissSong where
  cue_info : Option BlissCueInfo
  track_number : Option Nat
  title : Option String
  artist : Option String
  album : Option String
  album_artist : Option String
  genre : Option String
  durationSecs : Nat
  analysis : Analysis
deriving DecidableEq

/-- The accumulators of the reducing loop of `analyse_new_files` (`analyse.rs` lines
221-313): the catalog handle, the `analysed` counter, the failure and tag-error lists,
the `reported_cue` set (keyed by the full decoded path) and the progress-bar position
(the number of `progress.inc(1)` calls, the per-parent bookkeeping for cue tracks). -/
structure ReduceState where
  db : Db
  analysed : Nat
  failed : List String
  tag_error : List String
  reported_cue : List String
  progress : Nat
deriving DecidableEq

/-- One iteration of the reducing loop of the non-ffmpeg `analyse_new_files`
(`analyse.rs` lines 235-313).  `tagsOf` models `tags::read(cpath, false)`.  For a cue
sub-track: the first arrival of a parent increments `analysed` and records the parent
in `reported_cue` (lines 248-253), the metadata comes from the analyzer, the row key
is the stripped parent path plus the cue marker and track number; `analysed` is then
incremented again by line 298, which runs for every success.  `inc_progress` is false
exactly for the later sub-tracks of an already-reported parent.  For a plain file:
tags are read, the analyzer fields are the fallback, an upsert always happens.
Failures only push onto `failed`. -/
def reduce_step (windows : Bool) (mpath : String) (tagsOf : String → Metadata)
    (st : ReduceState) (item : String × Except String BlissSong) : ReduceState :=
  let path := item.1
  let sname := stripPfx mpath path
  match item.2 with
  | .error e =>
      { st with failed := st.failed ++ [sname ++ " - " ++ e],
                progress := st.progress + 1 }
  | .ok track =>
      let cpath := path
      match track.cue_info with
      | some cue =>
          match track.track_number with
          | some track_num =>
              let first := ¬ st.reported_cue.contains cpath
              let analysed1 := if first then st.analysed + 1 else st.analysed
              let reported1 := if first then st.reported_cue ++ [cpath]
                               else st.reported_cue
              let meta : Metadata :=
                { title := track.title.getD "", artist := track.artist.getD "",
                  album := track.album.getD "",
                  album_artist := track.album_artist.getD "",
                  genre := track.genre.getD "", duration := track.durationSecs,
                  analysis := none }
              let sname2 := stripPfx mpath cue.audio_file_path
              let db_path := sname2 ++ CUE_MARKER ++ toString track_num
              { st with db := st.db.add_track windows db_path meta track.analysis,
                        analysed := analysed1 + 1,
                        reported_cue := reported1,
                        progress := if first then st.progress + 1 else st.progress }
          | none =>
              { st with failed := st.failed ++ [sname ++ " - No track number?"],
                        analysed := st.analysed + 1,
                        progress := st.progress + 1 }
      | none =>
          let meta0 := tagsOf cpath
          let meta1 :=
            if meta0.is_empty then
              { meta0 with title := track.title.getD "",
                           artist := track.artist.getD "",
                           album := track.album.getD "",
                           album_artist := track.album_artist.getD "",
                           genre := track.genre.getD "",
                           duration := track.durationSecs }
            else meta0
          let tag_error1 := if meta1.is_empty then st.tag_error ++ [sname]
                            else st.tag_error
          { st with db := st.db.add_track windows sname meta1 track.analysis,
                    tag_error := tag_error1,
                    analysed := st.analysed + 1,
                    progress := st.progress + 1 }

/-- The whole reducing loop of the non-ffmpeg `analyse_new_files`: fold
`reduce_step` over the `(path, result)` stream in arrival order, starting from empty
accumulators. -/
def analyse_new_files_reduce (windows : Bool) (mpath : String)
    (tagsOf : String → Metadata) (db : Db)
    (items : List (String × Except String BlissSong)) : ReduceState :=
  items.foldl (reduce_step windows mpath tagsOf)
    { db := db, analysed := 0, failed := [], tag_error := [], reported_cue := [],
      progress := 0 }

/-- `MAX_GENRE_VAL` from `tags.rs`. -/
def MAX_GENRE_VAL : Nat := 192

/-- The tag block of an opened file as `tags::read` (`tags.rs` lines 146-268) consumes
it through lofty: the accessor fields, the full genre string list, the MPEG file-type
flag, the audio duration and the already-parsed `BLISS_ANALYSIS` outcome (the numeric
f32 parsing of `read_analysis_string` is external to this model). -/
structure LoftyTag where
  title : Option String
  artist : Option String
  album : Option String
  album_artist : Option String
  genre : Option String
  genres : List String
  isMpeg : Bool
  durationSecs : Nat
  analysisParsed : Option Analysis
deriving DecidableEq

/-- What `lofty::read_from_path` plus the primary/first-tag resolution (`tags.rs`
lines 152-162) yields for a path: the open failed, the file has no tag block at all,
or a tag block. -/
inductive TagSource where
  | openFail
  | noTag
  | tagged (t : LoftyTag)
deriving DecidableEq

/-- Rust `str::parse::<u8>` on a digit string. -/
def parseU8 (s : String) : Option Nat :=
  match s.toNat? with
  | some n => if n ≤ 255 then some n else none
  | none => none

/-- The MP3 numeric-genre conversion of `tags::read` (`tags.rs` lines 183-217):
a genre that parses as a u8 below `MAX_GENRE_VAL` is replaced by the id3v1 genre-table
entry (the table is the external `genresTable`); otherwise a `(number)text` form — the
regex requires a leading parenthesized digit run — is tried the same way. -/
def mp3GenreRemap (genresTable : Nat → String) (genreTag : Option String)
    (g0 : String) : String :=
  match genreTag with
  | none => g0
  | some genre =>
    match parseU8 genre with
    | some val => if val < MAX_GENRE_VAL then genresTable val else g0
    | none =>
      match genre.data with
      | '(' :: rest =>
        let digits := rest.takeWhile (fun c => c.isDigit)
        if digits.isEmpty = false ∧ (rest.drop digits.length).head? = some ')' then
          match parseU8 (String.mk digits) with
          | some val => if val < MAX_GENRE_VAL then genresTable val else g0
          | none => g0
        else g0
      | _ => g0

/-- `tags::read` (`tags.rs` lines 146-268).  The metadata starts as the default with
duration 180; an open failure or a file without any tag block returns it unchanged.
Otherwise the five text fields are filled from the tag (joining multiple genre tags
with a semicolon, applying the MPEG numeric-genre conversion), the duration comes from
the audio properties, and with `read_analysis` the parsed `BLISS_ANALYSIS` outcome is
attached. -/
def tags_read (genresTable : Nat → String) (src : TagSource)
    (read_analysis : Bool) : Metadata :=
  let meta0 : Metadata := { Metadata.mkDefault with duration := 180 }
  match src with
  | .openFail => meta0
  | .noTag => meta0
  | .tagged t =>
    let genre0 := if 1 < t.genres.length then String.intercalate ";" t.genres
                  else t.genre.getD ""
    let genre1 := if t.isMpeg then mp3GenreRemap genresTable t.genre genre0 else genre0
    { title := t.title.getD "", artist := t.artist.getD "",
      album_artist := t.album_artist.getD "", album := t.album.getD "",
      genre := genre1, duration := t.durationSecs,
      analysis := if read_analysis then t.analysisParsed else none }

/-- Catalog states reachable from `d` by a sequence of the upserts the classification
phase can perform: each step is an `add_track` of a metadata record that is non-empty
and already carries an analysis (the tagged fast path of `check_dir_entry`,
`analyse.rs` lines 157-165). -/
inductive TaggedUpserts (windows : Bool) : Db → Db → Prop where
  | refl (d : Db) : TaggedUpserts windows d d
  | step (d d' : Db) (key : String) (meta : Metadata) (a : Analysis) :
      TaggedUpserts windows d d' → meta.is_empty = false → meta.analysis = some a →
      TaggedUpserts windows d (d'.add_track windows key meta a)

/-! ## Concrete example data used by counterexamples and witnesses -/

/-- A catalog row with key `a/b/c.mp3` (forward-slash spelling). -/
def exRowFs : Row :=
  { file := "a/b/c.mp3", title := "", artist := "", album_artist := "", album := "",
    genre := "", duration := 0, ignore := 0, analysis := ⟨0⟩ }

/-- A catalog row for the plain key `a.flac.CUE_TRACK.1` (a first cue sub-track). -/
def exRowCue1 : Row :=
  { file := "a.flac" ++ CUE_MARKER ++ "1", title := "", artist := "",
    album_artist := "", album := "", genre := "", duration := 0, ignore := 0,
    analysis := ⟨0⟩ }

/-- A catalog row with key `a.flac`. -/
def exRowFlac : Row :=
  { file := "a.flac", title := "", artist := "", album_artist := "", album := "",
    genre := "", duration := 0, ignore := 0, analysis := ⟨0⟩ }

/-- A plain file `m/a.flac` (relative key `a.flac`), no cue companion, empty tags. -/
def exPlainFlac : PlainFile :=
  { fullPath := "m/a.flac", ext := some "flac", strippedOk := true, sname := "a.flac",
    cueExists := false, cuePath := "m/a.cue", cueTracksParsed := [],
    tagMeta := { Metadata.mkDefault with duration := 180 } }

/-- A plain file `m/a.flac` that has a same-stem cue companion. -/
def exPlainWithCue : PlainFile :=
  { exPlainFlac with cueExists := true }

/-- A plain file `m/c.mp3` whose embedded tags carry both metadata and a stored
analysis (the tagged fast path of `check_dir_entry`). -/
def exPlainTagged : PlainFile :=
  { fullPath := "m/c.mp3", ext := some "mp3", strippedOk := true, sname := "c.mp3",
    cueExists := false, cuePath := "m/c.cue", cueTracksParsed := [],
    tagMeta := { title := "T", artist := "A", album_artist := "", album := "",
                 genre := "", duration := 120, analysis := some ⟨3⟩ } }

/-- A scan state over an empty catalog. -/
def exScanEmpty : ScanState :=
  { db := ⟨[]⟩, track_paths := [], cue_tracks := [], file_count := 0,
    tagged_file_count := 0 }

/-- A scan state whose catalog already knows `a.flac` and `a.flac.CUE_TRACK.1`. -/
def exScanKnown : ScanState :=
  { db := ⟨[exRowFlac, exRowCue1]⟩, track_paths := [], cue_tracks := [],
    file_count := 0, tagged_file_count := 0 }

/-- A successful bliss result for sub-track `n` of the cue parent `m/a.flac`. -/
def exCueSong (n : Nat) : BlissSong :=
  { cue_info := some ⟨"m/a.flac"⟩, track_number := some n, title := some "t",
    artist := some "ar", album := some "al", album_artist := some "aa",
    genre := some "g", durationSecs := 180, analysis := ⟨n⟩ }

/-- The arrival stream of one cue parent expanded into two sub-tracks, both
successful. -/
def exCueItems : List (String × Except String BlissSong) :=
  [("m/a.cue", .ok (exCueSong 1)), ("m/a.cue", .ok (exCueSong 2))]

/-- A cue sheet referencing two underlying audio files. -/
def exTwoFileSheet : RCueSheet :=
  { title := some "Album", performer := some "Perf", comments := [],
    files := [⟨[]⟩, ⟨[]⟩] }

/-- A sheet track starting at `s` seconds. -/
def exSheetTrack (s : Nat) : RCueTrack :=
  { title := some "t", performer := some "p", indices := [("01", s)] }

/-- The single `FILE` entry of the spec's 3-track example: starts 0:00, 3:00, 7:00. -/
def exCueFile3 : RCueFile := ⟨[exSheetTrack 0, exSheetTrack 180, exSheetTrack 420]⟩

/-- The spec's 3-track example sheet on a single audio file. -/
def exCueSheet3 : RCueSheet :=
  { title := some "Album", performer := some "Perf", comments := [("GENRE", "Rock")],
    files := [exCueFile3] }

/-- A minimal cue track used to build concrete dispatcher inputs. -/
def exCueTrack (i : Nat) : CueTrack :=
  { audio_path := "a.flac", track_path := "a.flac" ++ CUE_MARKER ++ toString i,
    title := "", artist := "", album := "", album_artist := "", genre := "",
    start := 0, duration := 0 }

/-- Ten pending cue tracks. -/
def exTracks10 : List CueTrack := (List.range 10).map exCueTrack

/-! ## Helper lemmas -/

theorem length_filter_add_not (p : α → Bool) (l : List α) :
    (l.filter p).length + (l.filter (fun a => !(p a))).length = l.length := by
  induction l with
  | nil => simp
  | cons a l ih =>
    by_cases h : p a = true <;> simp [List.filter_cons, h] <;> omega

theorem foldl_delete_rows (ts : List String) (db : Db) :
    (ts.foldl (fun (d : Db) t => ⟨d.rows.filter (fun r => r.file != t)⟩) db).rows
      = db.rows.filter (fun r => !(ts.contains r.file)) := by
  induction ts generalizing db with
  | nil => simp
  | cons t ts ih =>
    rw [List.foldl_cons, ih]
    rw [List.filter_filter]
    apply List.filter_congr
    intro r _
    by_cases h1 : r.file = t <;> by_cases h2 : r.file ∈ ts <;>
      simp [h1, h2, List.contains_cons, bne]

theorem contains_to_remove (windows : Bool) (fs : String → String → Bool)
    (roots : List String) (db : Db) (r : Row) (hr : r ∈ db.rows) :
    ((db.rows.filter (fun r' =>
        !(existsUnderRoots fs roots (denormPath windows (stripCue r'.file))))).map
        (fun r' => r'.file)).contains r.file
      = !(existsUnderRoots fs roots (denormPath windows (stripCue r.file))) := by
  cases hP : existsUnderRoots fs roots (denormPath windows (stripCue r.file)) with
  | false =>
    have hmem : r.file ∈ (db.rows.filter (fun r' =>
        !(existsUnderRoots fs roots (denormPath windows (stripCue r'.file))))).map
        (fun r' => r'.file) :=
      List.mem_map.mpr ⟨r, List.mem_filter.mpr ⟨hr, by simp [hP]⟩, rfl⟩
    simpa using List.elem_iff.mpr hmem
  | true =>
    simp only [Bool.not_true]
    rw [← Bool.not_eq_true]
    intro hc
    obtain ⟨r', hr', hfile⟩ := List.mem_map.mp (List.elem_iff.mp hc)
    have h2 := (List.mem_filter.mp hr').2
    rw [hfile, hP] at h2
    simp at h2

/-- Claim C6: prune strips any cue suffix from each stored key to obtain the
underlying file key, deletes exactly the rows whose underlying file is absent under
every root (so of rows {A,B,C} with B's file deleted exactly {A,C} remain), and in
live mode the `countAfter == countBefore - removedCount` integrity check succeeds (a
mismatch would only be logged, never aborted on, as `remove_old` returns normally
either way). -/
theorem remove_old_prune_correct (windows : Bool) (fs : String → String → Bool)
    (roots : List String) (db : Db) :
    (db.remove_old windows fs roots false).1.rows
        = db.rows.filter (fun r =>
            existsUnderRoots fs roots (denormPath windows (stripCue r.file)))
      ∧ (db.remove_old windows fs roots false).2 = true := by
  simp only [Db.remove_old]
  split
  case isTrue h =>
    have hrows : (((db.rows.filter (fun r' =>
        !(existsUnderRoots fs roots (denormPath windows (stripCue r'.file))))).map
        (fun r' => r'.file)).foldl
          (fun (d : Db) t => ⟨d.rows.filter (fun r => r.file != t)⟩) db).rows
        = db.rows.filter (fun r =>
            existsUnderRoots fs roots (denormPath windows (stripCue r.file))) := by
      rw [foldl_delete_rows]
      apply List.filter_congr
      intro r hr
      rw [contains_to_remove windows fs roots db r hr, Bool.not_not]
    refine ⟨hrows, ?_⟩
    rw [hrows, List.length_map]
    have := length_filter_add_not
      (fun r : Row => existsUnderRoots fs roots (denormPath windows (stripCue r.file)))
      db.rows
    simp only [beq_iff_eq]
    omega
  case isFalse h =>
    have hlen : ((db.rows.filter (fun r' =>
        !(existsUnderRoots fs roots (denormPath windows (stripCue r'.file))))).map
        (fun r' => r'.file)).length = 0 := by
      by_contra hne
      exact h ⟨Nat.pos_of_ne_zero hne, trivial⟩
    rw [List.length_map, List.length_eq_zero] at hlen
    have hall := List.filter_eq_nil_iff.mp hlen
    refine ⟨?_, rfl⟩
    symm
    apply List.filter_eq_self.mpr
    intro r hr
    have := hall r hr
    simpa using this

/-- Claim C9, counterexample: off Windows (`cfg!(windows)` false) no separator
normalization happens, so with the row `a/b/c.mp3` in the catalog the key
`a\b\c.mp3` does not resolve to that row — lookup disagrees on the two spellings and
an upsert of the backslash spelling creates a second row, contradicting "refer to the
same catalog row ... on every platform". -/
theorem get_rowid_backslash_distinct_off_windows :
    ¬ (Db.get_rowid ⟨[exRowFs]⟩ false "a\\b\\c.mp3"
        = Db.get_rowid ⟨[exRowFs]⟩ false "a/b/c.mp3")
      ∧ (Db.add_track ⟨[exRowFs]⟩ false "a\\b\\c.mp3" Metadata.mkDefault ⟨0⟩).rows.length
          = 2 := by
  constructor
  · decide
  · decide

/-- Claim C9 (amended): the separator normalization of `Db::get_rowid` and
`Db::add_track` is guarded by `cfg!(windows)`: on Windows the keys derived from
`a\b\c.mp3` and `a/b/c.mp3` agree for lookup and upsert (one row for both spellings);
on every other platform the key is used verbatim, so the spellings stay distinct. -/
theorem path_sep_normalized_on_windows_only :
    (∀ db : Db, Db.get_rowid db true "a\\b\\c.mp3" = Db.get_rowid db true "a/b/c.mp3")
      ∧ (∀ (db : Db) (m : Metadata) (a : Analysis),
          Db.add_track db true "a\\b\\c.mp3" m a = Db.add_track db true "a/b/c.mp3" m a)
      ∧ (∀ p : String, normPath false p = p) := by
  have h : normPath true "a\\b\\c.mp3" = normPath true "a/b/c.mp3" := by decide
  refine ⟨?_, ?_, fun p => rfl⟩
  · intro db
    unfold Db.get_rowid
    rw [h]
  · intro db m a
    unfold Db.add_track Db.get_rowid
    rw [h]

/-- Claim C3: during classification, any plain file whose key is already present
(rowid > 0), and any cue sheet whose first sub-track key is already present, is
excluded from the pending set — `check_dir_entry` leaves the scan state (catalog,
pending lists and counters) completely unchanged, so a second analyse run over an
unchanged filesystem queues nothing and performs no catalog write for such entries. -/
theorem scan_excludes_known (windows ffmpegFeat dry_run : Bool) (max_num_files : Nat)
    (f : PlainFile) (st : ScanState)
    (h : (f.cueExists = true ∧ 0 < st.db.get_rowid windows (cueFirstTrackKey f.sname))
       ∨ (f.cueExists = false ∧ 0 < st.db.get_rowid windows f.sname)) :
    scan_entry windows ffmpegFeat dry_run max_num_files (.file f) st = st := by
  have hstep : scan_entry windows ffmpegFeat dry_run max_num_files (.file f) st
      = scan_file windows ffmpegFeat dry_run max_num_files f st := by
    simp [scan_entry]
  rw [hstep]
  rcases h with ⟨hcue, hid⟩ | ⟨hcue, hid⟩ <;>
    · simp only [scan_file, hcue]
      repeat' split
      all_goals first | rfl | omega | simp_all

/-- Witness for claim C3: the catalog already knows `a.flac`; classifying the plain
file `m/a.flac` changes nothing. -/
theorem scan_excludes_known_witness :
    (exPlainFlac.cueExists = false
        ∧ 0 < exScanKnown.db.get_rowid false exPlainFlac.sname)
      ∧ scan_entry false false false 0 (.file exPlainFlac) exScanKnown = exScanKnown :=
  ⟨⟨by decide, by decide⟩,
   scan_excludes_known false false false 0 exPlainFlac exScanKnown
     (Or.inr ⟨by decide, by decide⟩)⟩

/-- Claim C1, counterexample: the pipeline keeps no failure memo at all.  A plain
file whose analysis failed leaves no trace in the catalog (the reducer's error arm
only appends to the in-memory `failed` list), so on the next analyse run — with the
file's modification time unchanged, which nothing in the code ever reads —
`check_dir_entry` queues the very same file again instead of skipping it: here
`m/a.flac`, absent from the catalog after its failure, lands in `track_paths` again. -/
theorem failed_file_requeued_despite_same_mtime :
    ¬ ((scan_entry false false false 0 (.file exPlainFlac) exScanEmpty).track_paths
        = exScanEmpty.track_paths) := by decide

/-- Claim C1 (amended): there is no failure memoization.  `Db::init` creates only the
`Tracks` table — no failure table exists — and an analysis failure writes nothing to
the catalog, so a plain file that previously failed (hence has no catalog row) is
re-queued by every subsequent analyse run, whether or not its modification time
changed (no part of the scan reads a modification time). -/
theorem no_failure_memo_always_requeued (windows ffmpegFeat dry_run : Bool)
    (max_num_files : Nat) (f : PlainFile) (st : ScanState) (e : String)
    (hgate : max_num_files = 0 ∨ st.file_count < max_num_files)
    (hext : f.ext = some e) (hvalid : VALID_EXTENSIONS.contains e = true)
    (hstrip : f.strippedOk = true) (hcue : f.cueExists = false)
    (hid : st.db.get_rowid windows f.sname = 0)
    (htag : f.tagMeta.is_empty = true ∨ f.tagMeta.analysis = none) :
    (scan_entry windows ffmpegFeat dry_run max_num_files (.file f) st).track_paths
        = st.track_paths ++ [f.fullPath]
      ∧ Db.init_tables = ["Tracks"] := by
  refine ⟨?_, rfl⟩
  have hstep : scan_entry windows ffmpegFeat dry_run max_num_files (.file f) st
      = scan_file windows ffmpegFeat dry_run max_num_files f st := by
    simp [scan_entry]
  rw [hstep]
  have hmem : e ∈ VALID_EXTENSIONS := List.elem_iff.mp hvalid
  rcases htag with h | h <;>
    simp [scan_file, hext, hcue, hid, hstrip, hmem, hgate, h]

/-- Witness for claim C1 (amended): the plain file `m/a.flac`, absent from the
catalog after a failure, is queued again by the next scan. -/
theorem no_failure_memo_always_requeued_witness :
    (scan_entry false false false 0 (.file exPlainFlac) exScanEmpty).track_paths
        = exScanEmpty.track_paths ++ [exPlainFlac.fullPath]
      ∧ Db.init_tables = ["Tracks"] :=
  no_failure_memo_always_requeued false false false 0 exPlainFlac exScanEmpty "flac"
    (Or.inl rfl) (by decide) (by decide) (by decide) (by decide) (by decide)
    (Or.inl (by decide))

theorem TaggedUpserts.trans_of (windows : Bool) (d1 d2 d3 : Db)
    (h12 : TaggedUpserts windows d1 d2) (h23 : TaggedUpserts windows d2 d3) :
    TaggedUpserts windows d1 d3 := by
  induction h23 with
  | refl => exact h12
  | step d' key meta a h hne ha ih => exact TaggedUpserts.step _ _ key meta a ih hne ha

theorem tagged_upserts_scan_file (w ff dry : Bool) (m : Nat) (f : PlainFile)
    (st : ScanState) :
    TaggedUpserts w st.db (scan_file w ff dry m f st).db := by
  simp only [scan_file]
  repeat' split
  all_goals try exact TaggedUpserts.refl st.db
  all_goals
    rename_i h hdry
  all_goals
    obtain ⟨a, ha⟩ := Option.isSome_iff_exists.mp h.2
  all_goals rw [show ({ st with
      db := st.db.add_track w f.sname f.tagMeta (f.tagMeta.analysis.getD ⟨0⟩),
      tagged_file_count := st.tagged_file_count + 1 } : ScanState).db
        = st.db.add_track w f.sname f.tagMeta (f.tagMeta.analysis.getD ⟨0⟩) from rfl, ha]
  all_goals
    exact TaggedUpserts.step st.db st.db f.sname f.tagMeta a
      (TaggedUpserts.refl st.db) h.1 ha

mutual

theorem scan_entry_dry_db (w ff : Bool) (m : Nat) (e : FsEntry) (st : ScanState) :
    (scan_entry w ff true m e st).db = st.db := by
  cases e with
  | dir notmusic children =>
      simp only [scan_entry]
      split
      · rfl
      · split
        · exact scan_list_dry_db w ff m children st
        · rfl
  | file f =>
      simp only [scan_entry, scan_file]
      repeat' split
      all_goals first | rfl | simp_all

theorem scan_list_dry_db (w ff : Bool) (m : Nat) (l : FsList) (st : ScanState) :
    (scan_list w ff true m l st).db = st.db := by
  cases l with
  | nil => rfl
  | cons e rest =>
      simp only [scan_list]
      split
      · exact scan_entry_dry_db w ff m e st
      · rw [scan_list_dry_db w ff m rest _, scan_entry_dry_db w ff m e st]

end

mutual

theorem tagged_upserts_scan_entry (w ff dry : Bool) (m : Nat) (e : FsEntry)
    (st : ScanState) :
    TaggedUpserts w st.db (scan_entry w ff dry m e st).db := by
  cases e with
  | dir notmusic children =>
      simp only [scan_entry]
      split
      · exact .refl st.db
      · split
        · exact tagged_upserts_scan_list w ff dry m children st
        · exact .refl st.db
  | file f =>
      have h := tagged_upserts_scan_file w ff dry m f st
      simpa [scan_entry] using h

theorem tagged_upserts_scan_list (w ff dry : Bool) (m : Nat) (l : FsList)
    (st : ScanState) :
    TaggedUpserts w st.db (scan_list w ff dry m l st).db := by
  cases l with
  | nil => exact .refl st.db
  | cons e rest =>
      simp only [scan_list]
      split
      · exact tagged_upserts_scan_entry w ff dry m e st
      · exact TaggedUpserts.trans_of w st.db _ _
          (tagged_upserts_scan_entry w ff dry m e st)
          (tagged_upserts_scan_list w ff dry m rest _)

end

/-- Claim C8, counterexample: the classification phase is not write-free.  For a
plain file absent from the catalog whose embedded tags carry metadata and a stored
analysis, `check_dir_entry` (lines 157-165) calls `db.add_track` during the scan when
not in dry-run: classifying `m/c.mp3` over an empty catalog changes the catalog. -/
theorem scan_writes_catalog_on_tagged_file :
    ¬ ((scan_entry false false false 0 (.file exPlainTagged) exScanEmpty).db
        = exScanEmpty.db) := by decide

/-- Claim C8 (amended): the scan/classify phase performs no catalog writes beyond
upserting plain files whose embedded tags already carry metadata and an analysis (the
tagged fast path), and even those only outside dry-run: in dry-run mode the whole
traversal leaves the catalog untouched, and in general the catalog after classifying
any directory tree is reachable from the starting catalog by tagged upserts alone. -/
theorem scan_phase_frame :
    (∀ (w ff : Bool) (m : Nat) (e : FsEntry) (st : ScanState),
        (scan_entry w ff true m e st).db = st.db)
      ∧ (∀ (w ff dry : Bool) (m : Nat) (e : FsEntry) (st : ScanState),
          TaggedUpserts w st.db (scan_entry w ff dry m e st).db) :=
  ⟨fun w ff m e st => scan_entry_dry_db w ff m e st,
   fun w ff dry m e st => tagged_upserts_scan_entry w ff dry m e st⟩

/-- Claim C2, evaluation at the failing input: one cue parent expanded into two
sub-tracks that both analyse successfully.  The reducing loop of the non-ffmpeg
`analyse_new_files` increments `analysed` once per successful result (line 298) and
once more for the first-arriving sub-track of each parent (line 251), so the counter
ends at 3, not 2 — in either arrival order — while the per-parent progress bookkeeping
(`reported_cue` / `inc_progress`) fires exactly once as the claim states. -/
theorem cue_parent_double_count_eval :
    (analyse_new_files_reduce false "m" (fun _ => Metadata.mkDefault) ⟨[]⟩
        exCueItems).analysed = 3
      ∧ (analyse_new_files_reduce false "m" (fun _ => Metadata.mkDefault) ⟨[]⟩
          exCueItems).progress = 1
      ∧ (analyse_new_files_reduce false "m" (fun _ => Metadata.mkDefault) ⟨[]⟩
          exCueItems.reverse).analysed = 3
      ∧ (analyse_new_files_reduce false "m" (fun _ => Metadata.mkDefault) ⟨[]⟩
          exCueItems.reverse).progress = 1 := by
  refine ⟨?_, ?_, ?_, ?_⟩ <;> decide

/-- Claim C4, evaluation at the failing inputs: when `rcue` fails to parse, or when
the sheet references two underlying audio files, `cue::parse` builds an empty track
list and then runs `for i in 0..(resp.len()-1)` — a usize underflow (panic in a debug
build, a 2^64-iteration loop in release), modelled as `none` — rather than returning
the empty list normally. -/
theorem cue_parse_empty_underflows :
    cue_parse "m/a.flac" "a" (.error "parse failure") = none
      ∧ cue_parse "m/a.flac" "a" (.ok exTwoFileSheet) = none := by
  constructor <;> decide

theorem mkCueTrack_start (ap st al aa g : String) (n : Nat) (t : RCueTrack)
    (s : Nat) : (mkCueTrack ap st al aa g n t s).start = s := rfl

theorem mkCueTrack_duration (ap st al aa g : String) (n : Nat) (t : RCueTrack)
    (s : Nat) : (mkCueTrack ap st al aa g n t s).duration = LAST_TRACK_DURATION := rfl

theorem build_map_start (ap st al aa g : String) (ts : List RCueTrack)
    (acc : List CueTrack) (h : ∀ t ∈ ts, t.indices ≠ []) :
    (buildCueTracks ap st al aa g ts acc).map (fun c => c.start)
      = acc.map (fun c => c.start) ++ ts.map startOf := by
  induction ts generalizing acc with
  | nil => simp [buildCueTracks]
  | cons t rest ih =>
    have ht : t.indices ≠ [] := h t (by simp)
    obtain ⟨p, ps, hp⟩ : ∃ p ps, t.indices = p :: ps := by
      cases hind : t.indices with
      | nil => exact absurd hind ht
      | cons p ps => exact ⟨p, ps, rfl⟩
    simp only [buildCueTracks, hp, List.head?_cons]
    rw [ih _ (fun t' ht' => h t' (List.mem_cons_of_mem t ht'))]
    simp [mkCueTrack_start, startOf, hp]

theorem build_map_duration (ap st al aa g : String) (ts : List RCueTrack)
    (acc : List CueTrack) (h : ∀ t ∈ ts, t.indices ≠ []) :
    (buildCueTracks ap st al aa g ts acc).map (fun c => c.duration)
      = acc.map (fun c => c.duration)
          ++ List.replicate ts.length LAST_TRACK_DURATION := by
  induction ts generalizing acc with
  | nil => simp [buildCueTracks]
  | cons t rest ih =>
    have ht : t.indices ≠ [] := h t (by simp)
    obtain ⟨p, ps, hp⟩ : ∃ p ps, t.indices = p :: ps := by
      cases hind : t.indices with
      | nil => exact absurd hind ht
      | cons p ps => exact ⟨p, ps, rfl⟩
    simp only [buildCueTracks, hp, List.head?_cons]
    rw [ih _ (fun t' ht' => h t' (List.mem_cons_of_mem t ht'))]
    simp [mkCueTrack_duration, List.replicate_succ]

theorem fixDur_length (l : List CueTrack) : (fixDur l).length = l.length := by
  induction l with
  | nil => rfl
  | cons a l ih =>
    cases l with
    | nil => rfl
    | cons b l2 => simpa [fixDur] using ih

theorem fixDur_map_duration (l : List CueTrack)
    (h : ∀ t ∈ l, t.duration = LAST_TRACK_DURATION) :
    (fixDur l).map (fun c => c.duration) = adjDiffs (l.map (fun c => c.start)) := by
  induction l with
  | nil => rfl
  | cons a l ih =>
    cases l with
    | nil => simp [fixDur, adjDiffs, h a (by simp)]
    | cons b l2 =>
      have hb : ∀ t ∈ b :: l2, t.duration = LAST_TRACK_DURATION :=
        fun t ht => h t (List.mem_cons_of_mem a ht)
      simp only [fixDur, adjDiffs, List.map_cons]
      rw [ih hb]
      simp [List.map_cons]

theorem startsSorted_eq_sortedStarts (l : List CueTrack) :
    startsSorted l = sortedStarts (l.map (fun c => c.start)) := by
  induction l with
  | nil => rfl
  | cons a l ih =>
    cases l with
    | nil => rfl
    | cons b l2 =>
      simp only [startsSorted, sortedStarts, List.map_cons]
      rw [ih]
      simp [List.map_cons]

/-- Claim C5: for a successfully parsed single-file cue sheet (tracks indexed, start
offsets weakly increasing), every track except the last gets duration `next track's
start - own start` and the last track carries the `LAST_TRACK_DURATION` sentinel
(this is exactly `adjDiffs` over the start offsets); the reducer of
`analyse_new_cue_tracks` then substitutes the decoder-measured duration for a
sentinel-duration track and keeps every sub-sentinel duration unchanged. -/
theorem cue_parse_durations (audioPath audioStem : String) (cue : RCueSheet)
    (f : RCueFile) (hf : cue.files = [f]) (hne : f.tracks ≠ [])
    (hidx : ∀ t ∈ f.tracks, t.indices ≠ [])
    (hmono : sortedStarts (f.tracks.map startOf) = true) :
    ∃ l, cue_parse audioPath audioStem (.ok cue) = some l
      ∧ l.length = f.tracks.length
      ∧ l.map (fun c => c.duration) = adjDiffs (f.tracks.map startOf)
      ∧ (∀ sd : Nat, cue_track_resolved_duration LAST_TRACK_DURATION sd = sd)
      ∧ (∀ d sd : Nat, d < LAST_TRACK_DURATION →
          cue_track_resolved_duration d sd = d) := by
  have hresp : cue_parse audioPath audioStem (.ok cue)
      = fixupDurations (buildCueTracks audioPath audioStem (cue.title.getD "")
          (cue.performer.getD "") (cueGenre cue.comments) f.tracks []) := by
    simp [cue_parse, hf]
  have hms := build_map_start audioPath audioStem (cue.title.getD "")
    (cue.performer.getD "") (cueGenre cue.comments) f.tracks [] hidx
  have hmd := build_map_duration audioPath audioStem (cue.title.getD "")
    (cue.performer.getD "") (cueGenre cue.comments) f.tracks [] hidx
  set b := buildCueTracks audioPath audioStem (cue.title.getD "")
    (cue.performer.getD "") (cueGenre cue.comments) f.tracks [] with hbdef
  have hlen : b.length = f.tracks.length := by
    have h1 := congrArg List.length hms
    simpa using h1
  have hbne : b ≠ [] := by
    intro hb
    apply hne
    rw [hb] at hlen
    exact (List.length_eq_zero.mp hlen.symm)
  have hdursentinel : ∀ t ∈ b, t.duration = LAST_TRACK_DURATION := by
    intro t ht
    have h1 : t.duration ∈ b.map (fun c => c.duration) :=
      List.mem_map_of_mem (fun c => c.duration) ht
    rw [hmd] at h1
    simp only [List.map_nil, List.nil_append] at h1
    exact List.eq_of_mem_replicate h1
  have hsorted : startsSorted b = true := by
    rw [startsSorted_eq_sortedStarts, hms]
    simpa using hmono
  refine ⟨fixDur b, ?_, ?_, ?_, ?_, ?_⟩
  · rw [hresp]
    simp [fixupDurations, hbne, hsorted]
  · rw [fixDur_length]
    exact hlen
  · rw [fixDur_map_duration b hdursentinel, hms]
    simp
  · intro sd
    simp [cue_track_resolved_duration]
  · intro d sd hd
    simp [cue_track_resolved_duration, Nat.not_le.mpr hd]

/-- Witness for claim C5: the spec's example — starts 0:00, 3:00 and 7:00 on a 10:00
container — yields durations 180 s, 240 s and the sentinel, and the decoder-measured
180 s replaces the sentinel in the reducer. -/
theorem cue_parse_durations_witness :
    (∃ l, cue_parse "m/a.flac" "a" (.ok exCueSheet3) = some l
        ∧ l.length = exCueFile3.tracks.length
        ∧ l.map (fun c => c.duration) = adjDiffs (exCueFile3.tracks.map startOf)
        ∧ (∀ sd : Nat, cue_track_resolved_duration LAST_TRACK_DURATION sd = sd)
        ∧ (∀ d sd : Nat, d < LAST_TRACK_DURATION →
            cue_track_resolved_duration d sd = d))
      ∧ (cue_parse "m/a.flac" "a" (.ok exCueSheet3)).map
          (fun l => l.map (fun c => c.duration)) = some [180, 240, LAST_TRACK_DURATION]
      ∧ cue_track_resolved_duration LAST_TRACK_DURATION 180 = 180
      ∧ cue_track_resolved_duration 240 999 = 240 :=
  ⟨cue_parse_durations "m/a.flac" "a" exCueSheet3 exCueFile3 rfl (by decide)
     (by decide) (by decide),
   by decide, by decide, by decide⟩

theorem chunksOfFuel_nil (k fuel : Nat) : chunksOfFuel (α := α) k fuel [] = [] := by
  cases fuel <;> rfl

theorem chunksOfFuel_join (k : Nat) (hk : 0 < k) :
    ∀ (fuel : Nat) (l : List α), l.length ≤ fuel →
      (chunksOfFuel k fuel l).flatten = l := by
  intro fuel
  induction fuel with
  | zero =>
    intro l hl
    rw [List.length_eq_zero.mp (Nat.le_zero.mp hl)]
    rfl
  | succ n ih =>
    intro l hl
    cases l with
    | nil => rfl
    | cons x xs =>
      simp only [chunksOfFuel, List.flatten_cons]
      rw [ih ((x :: xs).drop k) (by
        simp only [List.length_drop, List.length_cons]
        simp only [List.length_cons] at hl
        omega)]
      exact List.take_append_drop k (x :: xs)

theorem chunksOfFuel_sizes (k : Nat) (hk : 0 < k) :
    ∀ (fuel : Nat) (l : List α), l.length ≤ fuel →
      ∀ c ∈ chunksOfFuel k fuel l, c ≠ [] ∧ c.length ≤ k := by
  intro fuel
  induction fuel with
  | zero =>
    intro l hl c hc
    rw [List.length_eq_zero.mp (Nat.le_zero.mp hl)] at hc
    simp [chunksOfFuel_nil] at hc
  | succ n ih =>
    intro l hl c hc
    cases l with
    | nil =>
        rw [chunksOfFuel_nil] at hc
        simp at hc
    | cons x xs =>
      simp only [chunksOfFuel, List.mem_cons] at hc
      rcases hc with hc | hc
      · subst hc
        refine ⟨?_, by simp [List.length_take]⟩
        obtain ⟨k2, hk2⟩ : ∃ k2, k = k2 + 1 := ⟨k - 1, by omega⟩
        subst hk2
        simp [List.take]
      · exact ih ((x :: xs).drop k) (by
          simp only [List.length_drop, List.length_cons]
          simp only [List.length_cons] at hl
          omega) c hc

theorem chunksOfFuel_dropLast (k : Nat) (hk : 0 < k) :
    ∀ (fuel : Nat) (l : List α), l.length ≤ fuel →
      ∀ c ∈ (chunksOfFuel k fuel l).dropLast, c.length = k := by
  intro fuel
  induction fuel with
  | zero =>
    intro l hl c hc
    rw [List.length_eq_zero.mp (Nat.le_zero.mp hl)] at hc
    simp [chunksOfFuel_nil] at hc
  | succ n ih =>
    intro l hl c hc
    cases l with
    | nil =>
        rw [chunksOfFuel_nil] at hc
        simp at hc
    | cons x xs =>
      simp only [chunksOfFuel] at hc
      cases hd : (x :: xs).drop k with
      | nil =>
        rw [hd, chunksOfFuel_nil] at hc
        simp at hc
      | cons y ys =>
        have hdrop_len : ((x :: xs).drop k).length ≤ n := by
          simp only [List.length_drop, List.length_cons]
          simp only [List.length_cons] at hl
          omega
        have hne : chunksOfFuel k n ((x :: xs).drop k) ≠ [] := by
          rw [hd]
          obtain ⟨n2, hn2⟩ : ∃ n2, n = n2 + 1 := by
            refine ⟨n - 1, ?_⟩
            rw [hd] at hdrop_len
            simp only [List.length_cons] at hdrop_len
            omega
          subst hn2
          simp [chunksOfFuel]
        rw [List.dropLast_cons_of_ne_nil hne, List.mem_cons] at hc
        rcases hc with hc | hc
        · subst hc
          have hklt : k < (x :: xs).length := by
            by_contra hkge
            push_neg at hkge
            rw [List.drop_eq_nil_of_le hkge] at hd
            exact (List.cons_ne_nil y ys) hd.symm
          simp only [List.length_take, List.length_cons] at hklt ⊢
          omega
        · exact ih ((x :: xs).drop k) hdrop_len c hc

/-- Claim C7, counterexample: with N = 10 tracks and W = 4 cpus, `chunk_length` is
the floor quotient 10/4 = 2, so the dispatcher produces five chunks of two (and
spawns five workers, more than W); the claim's ceil(10/4) = 3 (its floor-of-2 clause
does not apply) predicts a first chunk of three — the first chunk's size refutes the
claim at this input. -/
theorem chunking_floor_not_ceil :
    ((analyze_cue_streaming_chunks exTracks10 4).map (fun c => c.length)
        = [2, 2, 2, 2, 2])
      ∧ claimedChunkSize 10 4 = 3
      ∧ ¬ (((analyze_cue_streaming_chunks exTracks10 4).headD []).length
            = claimedChunkSize exTracks10.length 4) := by
  refine ⟨by decide, by decide, by decide⟩

/-- Claim C7 (amended): for a nonempty input of N items and W cpus the dispatcher
splits the list into contiguous chunks of `chunk_length N W` items — the floor
quotient N/W, promoted to N when the quotient is 0 (one single chunk when N < W) and
to 2 when the quotient is 1 with N > W — spawning one worker per chunk: the chunks
flatten back to the input (every item in exactly one chunk, order preserved), every
chunk is nonempty with at most `chunk_length` items, and all but the last have
exactly `chunk_length` items. -/
theorem chunking_floor_with_minimum (tracks : List CueTrack) (num_cpus : Nat)
    (hne : tracks ≠ []) :
    (analyze_cue_streaming_chunks tracks num_cpus).flatten = tracks
      ∧ (∀ c ∈ analyze_cue_streaming_chunks tracks num_cpus,
          c ≠ [] ∧ c.length ≤ chunk_length tracks.length num_cpus)
      ∧ (∀ c ∈ (analyze_cue_streaming_chunks tracks num_cpus).dropLast,
          c.length = chunk_length tracks.length num_cpus) := by
  have hn : 0 < tracks.length := List.length_pos.mpr hne
  have hk : 0 < chunk_length tracks.length num_cpus := by
    simp only [chunk_length]
    split
    · exact hn
    · split
      · omega
      · rename_i h1 h2
        exact Nat.pos_of_ne_zero h1
  have hchunks : analyze_cue_streaming_chunks tracks num_cpus
      = chunksOfFuel (chunk_length tracks.length num_cpus) tracks.length tracks := by
    rw [analyze_cue_streaming_chunks, if_neg hne, chunksOf,
      if_neg (Nat.pos_iff_ne_zero.mp hk)]
  rw [hchunks]
  exact ⟨chunksOfFuel_join (chunk_length tracks.length num_cpus) hk tracks.length
           tracks le_rfl,
         chunksOfFuel_sizes (chunk_length tracks.length num_cpus) hk tracks.length
           tracks le_rfl,
         chunksOfFuel_dropLast (chunk_length tracks.length num_cpus) hk tracks.length
           tracks le_rfl⟩

/-- Witness for claim C7 (amended): ten tracks over four cpus — chunk size 2, five
full chunks. -/
theorem chunking_floor_with_minimum_witness :
    (analyze_cue_streaming_chunks exTracks10 4).flatten = exTracks10
      ∧ (∀ c ∈ analyze_cue_streaming_chunks exTracks10 4,
          c ≠ [] ∧ c.length ≤ chunk_length exTracks10.length 4)
      ∧ (∀ c ∈ (analyze_cue_streaming_chunks exTracks10 4).dropLast,
          c.length = chunk_length exTracks10.length 4) :=
  chunking_floor_with_minimum exTracks10 4 (by decide)

/-- Claim C10: when the tag library cannot open the file, or the file carries no tag
block at all, `tags::read` returns a record whose five text fields are empty, whose
duration is the 180-second default and which carries no analysis; and
`Metadata::is_empty` consults only the five text fields — changing duration or
analysis never changes it, so such a record (or one holding only a duration or an
analysis) counts as empty and triggers the tag-error/fallback paths. -/
theorem tags_read_failure_defaults :
    (∀ (gt : Nat → String) (ra : Bool),
        tags_read gt .openFail ra
            = { title := "", artist := "", album_artist := "", album := "",
                genre := "", duration := 180, analysis := none }
          ∧ tags_read gt .noTag ra
            = { title := "", artist := "", album_artist := "", album := "",
                genre := "", duration := 180, analysis := none })
      ∧ (∀ (m : Metadata) (d : Nat) (a : Option Analysis),
          Metadata.is_empty { m with duration := d, analysis := a } = m.is_empty)
      ∧ (∀ (gt : Nat → String) (ra : Bool),
          (tags_read gt .openFail ra).is_empty = true
            ∧ (tags_read gt .noTag ra).is_empty = true) :=
  ⟨fun _ _ => ⟨rfl, rfl⟩, fun _ _ _ => rfl, fun _ _ => ⟨rfl, rfl⟩⟩
